import Mathlib

/-!
Verification of the Recursive Execution Trace Synthesizer of the c-viz
frontend (`frontend/src/utils/stackSimulator.js` and its caller
`StackVisualizer.jsx`).

The JavaScript module is shallowly embedded: AST nodes become a mutual
inductive (`ASTNode` / `ASTList`), JavaScript numbers used as `maxDepth`
become `Option Int` (`none` plays the role of `NaN`), objects with
optional fields become structures with `Option` fields, and the handful
of JavaScript string primitives the module uses (`toLowerCase`,
`includes`, `trim`, `parseInt`, number-to-string coercion) are modelled
by structurally recursive functions over the character list of a
`String`.  The recursive descent `simulateCall` carries an explicit fuel
counter so that it is structurally recursive; a fuel-irrelevance lemma
shows any fuel above the hard stack bound gives the same trace, so the
fuel is a termination device, not a semantic change.
-/

/-! ## JavaScript string primitives -/

/-- ASCII whitespace test used by the `trim` model. -/
def isWS (c : Char) : Bool :=
  c == ' ' || c == '\t' || c == '\n' || c == '\r'

/-- Model of `String.prototype.toLowerCase` (ASCII case folding). -/
def jsToLower (s : String) : String :=
  ⟨s.data.map Char.toLower⟩

/-- Does `p` occur at the head of `l`? -/
def leadsWith : List Char → List Char → Bool
  | [], _ => true
  | _ :: _, [] => false
  | a :: p, b :: l => a == b && leadsWith p l

/-- Does `sub` occur contiguously somewhere in `l`? -/
def containsSub (sub : List Char) : List Char → Bool
  | [] => sub.isEmpty
  | c :: rest => leadsWith sub (c :: rest) || containsSub sub rest

/-- Model of `String.prototype.includes`. -/
def jsIncludes (s sub : String) : Bool :=
  containsSub sub.data s.data

/-- Model of `String.prototype.trim`. -/
def jsTrim (s : String) : String :=
  ⟨((s.data.dropWhile isWS).reverse.dropWhile isWS).reverse⟩

/-- Digit run at the head of a character list, as a number. -/
def digitsVal (acc : Nat) : List Char → Option Nat
  | [] => some acc
  | c :: rest =>
    if c.isDigit then digitsVal (acc * 10 + (c.toNat - '0'.toNat)) rest
    else some acc

/-- Model of `parseInt` on a string: optional sign followed by a digit
run; `none` models a `NaN` result. -/
def jsParseInt (s : String) : Option Int :=
  let cs := s.data.dropWhile isWS
  match cs with
  | '-' :: rest =>
    if rest.headD 'x' |>.isDigit then (digitsVal 0 (rest.takeWhile Char.isDigit)).map (fun n => -(n : Int))
    else none
  | '+' :: rest =>
    if rest.headD 'x' |>.isDigit then (digitsVal 0 (rest.takeWhile Char.isDigit)).map (fun n => (n : Int))
    else none
  | _ =>
    if cs.headD 'x' |>.isDigit then (digitsVal 0 (cs.takeWhile Char.isDigit)).map (fun n => (n : Int))
    else none

/-- A JavaScript value stored in a frame field: a number, a string, or
`undefined` (for absent object keys). -/
inductive JVal where
  | num (n : Int)
  | str (s : String)
  | undef
deriving DecidableEq, Repr

/-- A JavaScript number argument that may be `NaN` (`none`). -/
abbrev JNum := Option Int

/-! ## The AST data model

`{ id, type, name?, line, column, children }`, exactly the shape consumed
from the external AST provider.  `ASTList` is the (ordered) list of
children; keeping it mutual with `ASTNode` lets every traversal be
structurally recursive and hence computable by the kernel. -/

mutual
inductive ASTNode where
  | mk (id : String) (ntype : String) (nname : Option String) (line : Int)
       (column : Int) (children : ASTList)
inductive ASTList where
  | nil
  | cons (head : ASTNode) (tail : ASTList)
end

def ASTNode.ntype : ASTNode → String
  | .mk _ t _ _ _ _ => t

def ASTNode.nname : ASTNode → Option String
  | .mk _ _ nm _ _ _ => nm

def ASTNode.lineOf : ASTNode → Int
  | .mk _ _ _ ln _ _ => ln

def ASTNode.childrenOf : ASTNode → ASTList
  | .mk _ _ _ _ _ ch => ch

def ASTList.toList : ASTList → List ASTNode
  | .nil => []
  | .cons a l => a :: l.toList

/-- Build an `ASTList` from a `List`, for writing concrete trees. -/
def ASTList.ofList : List ASTNode → ASTList
  | [] => .nil
  | a :: l => .cons a (ASTList.ofList l)

/-- Convenience constructor for concrete trees. -/
def astOf (id ntype : String) (nname : Option String) (line column : Int)
    (children : List ASTNode) : ASTNode :=
  .mk id ntype nname line column (ASTList.ofList children)

/-- JavaScript truthiness of an optional string field
(`undefined` and `""` are falsy). -/
def truthyStr : Option String → Bool
  | some s => !(s == "")
  | none => false

/-- Truthiness of `name.trim()`. -/
def truthyTrim : Option String → Bool
  | some s => !(jsTrim s == "")
  | none => false

/-! ## The simulator's records -/

structure CallSite where
  name : String
  line : Int
deriving DecidableEq, Repr

structure FuncDef where
  name : String
  line : Int
  params : List String
  body : ASTNode
  isRecursive : Bool
  calls : List CallSite

abbrev Table := List (String × FuncDef)

structure StepRule where
  operator : String
  value : Int
deriving DecidableEq, Repr

structure StackFrame where
  name : String
  line : Int
  depth : Nat
  argName : Option String
  argValue : JVal
  returnValue : Option Int
  isBaseCase : Option Bool
deriving DecidableEq, Repr

structure TraceEvent where
  action : String
  frame : StackFrame
  stack : List String
  fullStack : List StackFrame
  description : String
  returnValue : Option Int
deriving DecidableEq, Repr

structure RecInfo where
  name : String
  params : List String
  line : Int
deriving DecidableEq, Repr

/-! ## `stackSimulator.js`, function by function -/

mutual
/-- `searchForName` inside `findCalleeFromFirstChild`: depth-first
search of one subtree; at each node a named `DECL_REF_EXPR` wins, then
the node's own non-empty (after trim) name, then the children in
order. -/
def searchForName : ASTNode → Option String
  | .mk _ ty nm _ _ ch =>
    if ty = "DECL_REF_EXPR" ∧ truthyStr nm then nm
    else if truthyStr nm ∧ truthyTrim nm then nm
    else searchNameList ch

def searchNameList : ASTList → Option String
  | .nil => none
  | .cons c cs =>
    match searchForName c with
    | some s => some s
    | none => searchNameList cs
end

/-- `findCalleeFromFirstChild`: only the first child of a `CALL_EXPR`
is searched for the callee name. -/
def findCalleeFromFirstChild (callExprNode : ASTNode) : Option String :=
  match callExprNode.childrenOf with
  | .nil => none
  | .cons firstChild _ => searchForName firstChild

mutual
/-- State threaded through `findAllCalls`'s traversal: the `seen` key
set and the accumulated call list. -/
def callsGo (funcNames : List String) : ASTNode → List String × List CallSite →
    List String × List CallSite
  | n@(.mk _ ty _ ln _ ch), (seen, calls) =>
    let st :=
      if ty = "CALL_EXPR" then
        match findCalleeFromFirstChild n with
        | some calleeName =>
          if ¬(calleeName = "") ∧ funcNames.contains calleeName then
            let key := calleeName ++ "-" ++ toString ln
            if seen.contains key then (seen, calls)
            else (key :: seen, calls ++ [⟨calleeName, ln⟩])
          else (seen, calls)
        | none => (seen, calls)
      else (seen, calls)
    callsGoList funcNames ch st

def callsGoList (funcNames : List String) : ASTList → List String × List CallSite →
    List String × List CallSite
  | .nil, st => st
  | .cons c cs, st => callsGoList funcNames cs (callsGo funcNames c st)
end

/-- `findAllCalls`: all resolved call sites in a subtree, deduplicated
by the `name-line` key. -/
def findAllCalls (node : ASTNode) (funcNames : List String) : List CallSite :=
  (callsGo funcNames node ([], [])).2

/-- The parameter-name collection loop of `extractFunctions`. -/
def paramsOf : List ASTNode → List String
  | [] => []
  | .mk _ ty nm _ _ _ :: cs =>
    match nm with
    | some s =>
      if ty = "PARM_DECL" ∧ ¬(s = "") then s :: paramsOf cs else paramsOf cs
    | none => paramsOf cs

/-- `functions[name] = record`: JavaScript object assignment keeps the
position of an existing key and appends a fresh one. -/
def upsert (tbl : Table) (k : String) (v : FuncDef) : Table :=
  match tbl with
  | [] => [(k, v)]
  | (k', v') :: rest => if k' = k then (k, v) :: rest else (k', v') :: upsert rest k v

mutual
/-- `extractFunctions`'s traversal. -/
def extractGo : ASTNode → Table → Table
  | n@(.mk _ ty nm ln _ ch), acc =>
    let acc1 :=
      match nm with
      | some s =>
        if ty = "FUNCTION_DECL" ∧ ¬(s = "") then
          upsert acc s
            { name := s, line := ln, params := paramsOf ch.toList, body := n,
              isRecursive := false, calls := [] }
        else acc
      | none => acc
    extractGoList ch acc1

def extractGoList : ASTList → Table → Table
  | .nil, acc => acc
  | .cons c cs, acc => extractGoList cs (extractGo c acc)
end

/-- `extractFunctions`. -/
def extractFunctions (ast : ASTNode) : Table :=
  extractGo ast []

def keysOf (tbl : Table) : List String := tbl.map (·.1)

/-- `detectRecursiveFunctions`: computes each function's resolved calls
and its self-recursion flag. -/
def detectRecursiveFunctions (tbl : Table) : Table :=
  let funcNames := keysOf tbl
  tbl.map (fun p =>
    let calls := findAllCalls p.2.body funcNames
    (p.1, { p.2 with isRecursive := calls.any (fun c => c.name == p.1), calls := calls }))

/-- The `[a, b] = [b, a + b]` Fibonacci loop of `calculateReturn`,
run for a given number of iterations. -/
def fibIter (a b : Int) : Nat → Int
  | 0 => b
  | k + 1 => fibIter b (a + b) k

/-- The `result *= i` factorial loop of `calculateReturn`. -/
def factIter (result i : Int) : Nat → Int
  | 0 => result
  | k + 1 => factIter (result * i) (i + 1) k

/-- `calculateReturn`: closed-form return value by substring matching on
the lower-cased function name. -/
def calculateReturn (funcName : String) (value : Int) : Int :=
  let lower := jsToLower funcName
  if jsIncludes lower "fib" then
    if value ≤ 1 then value
    else fibIter 0 1 (value - 1).toNat
  else if jsIncludes lower "factorial" || jsIncludes lower "fact" then
    factIter 1 2 (value - 1).toNat
  else value

/-- `extractOperator`: the source always reports subtraction. -/
def extractOperator (_node : ASTNode) : String := "-"

/-- The literal-scanning loop of `extractOperand`. -/
def extractOperandGo : List ASTNode → Int
  | [] => 1
  | .mk _ ty nm _ _ _ :: rest =>
    if ty = "INTEGER_LITERAL" then
      match nm with
      | some s =>
        if ¬(s = "") then
          match jsParseInt s with
          | some v => v
          | none => extractOperandGo rest
        else extractOperandGo rest
      | none => extractOperandGo rest
    else extractOperandGo rest

/-- `extractOperand`: first parseable integer literal among the
children, defaulting to 1. -/
def extractOperand (node : ASTNode) : Int :=
  extractOperandGo node.childrenOf.toList

/-- `detectRecursiveStep`. -/
def detectRecursiveStep (callNode : ASTNode) : Option StepRule :=
  match callNode.childrenOf with
  | .cons _ (.cons argNode _) =>
    if argNode.ntype = "BINARY_OPERATOR" then
      let operator := extractOperator argNode
      let operand := extractOperand argNode
      if ¬(operator = "") then some { operator := operator, value := operand }
      else some { operator := "-", value := 1 }
    else some { operator := "-", value := 1 }
  | _ => none

mutual
/-- The `findCallNode` closure of `simulateRecursion`: first
depth-first `CALL_EXPR` whose resolved callee is the target. -/
def findCallNode (target : String) : ASTNode → Option ASTNode
  | n@(.mk _ ty _ _ _ ch) =>
    if ty = "CALL_EXPR" ∧ findCalleeFromFirstChild n = some target then some n
    else findCallNodeList target ch

def findCallNodeList (target : String) : ASTList → Option ASTNode
  | .nil => none
  | .cons c cs =>
    match findCallNode target c with
    | some m => some m
    | none => findCallNodeList target cs
end

/-- First table entry flagged self-recursive (the `for (funcName in
functions)` loops). -/
def findRecursive (tbl : Table) : Option (String × FuncDef) :=
  tbl.find? (fun p => p.2.isRecursive)

/-- `functions[funcName]` lookup. -/
def lookupTbl (tbl : Table) (k : String) : Option FuncDef :=
  (tbl.find? (fun p => p.1 == k)).map (·.2)

def defaultStep : StepRule := { operator := "-", value := 1 }

/-- The step-rule selection block of `simulateRecursion` (default,
re-find the first recursive call node, detect). -/
def stepInfoFor (tbl : Table) : StepRule :=
  match findRecursive tbl with
  | none => defaultStep
  | some (recName, f) =>
    match findCallNode recName f.body with
    | none => defaultStep
    | some callNode =>
      match detectRecursiveStep callNode with
      | some s => s
      | none => defaultStep

/-- `depth > maxDepth` with JavaScript comparison semantics:
any comparison against `NaN` is false. -/
def jsGtDepth (depth : Nat) (maxD : JNum) : Bool :=
  match maxD with
  | none => false
  | some v => decide ((depth : Int) > v)

/-- `let initialVal = parseInt(maxDepth); if (isNaN(initialVal))
initialVal = 5;` — on a number argument `parseInt` is the identity and
only `NaN` falls back to 5. -/
def initialVal (maxD : JNum) : Int :=
  match maxD with
  | none => 5
  | some v => v

/-- `simulateCall`, with an explicit structural fuel.  The JavaScript
recursion is bounded by the `stack.length > 20` guard, so any fuel above
that bound yields the same trace (`simulateCall_fuel_irrelevant`);
`simulateRecursion` passes fuel 22, which the guard keeps from ever
being exhausted. -/
def simulateCall (tbl : Table) (stepInfo : StepRule) (maxD : JNum) :
    Nat → String → Int → Nat → List StackFrame → List TraceEvent
  | 0, _, _, _, _ => []
  | fuel + 1, funcName, argValue, depth, stack =>
    if jsGtDepth depth maxD then []
    else if stack.length > 20 then []
    else match lookupTbl tbl funcName with
      | none => []
      | some func =>
        let paramName := match func.params with
          | [] => "n"
          | p :: _ => if p = "" then "n" else p
        let returnValue := calculateReturn funcName argValue
        let newFrame : StackFrame :=
          { name := funcName, line := func.line, depth := depth,
            argName := some paramName, argValue := .num argValue,
            returnValue := some returnValue, isBaseCase := none }
        let newStack := stack ++ [newFrame]
        let pushEv : TraceEvent :=
          { action := "push", frame := newFrame,
            stack := newStack.map (·.name), fullStack := newStack,
            description := funcName ++ "(" ++ toString argValue ++ ")",
            returnValue := none }
        let isBaseCase : Bool := decide (argValue ≤ 1)
        let inner :=
          if func.isRecursive ∧ ¬(isBaseCase = true) then
            let nextVal0 :=
              if stepInfo.operator = "-" then argValue - stepInfo.value
              else if stepInfo.operator = "+" then argValue + stepInfo.value
              else if stepInfo.operator = "/" then Int.fdiv argValue stepInfo.value
              else if stepInfo.operator = "*" then argValue * stepInfo.value
              else argValue
            let nextVal :=
              if nextVal0 ≥ argValue ∧ ¬(stepInfo.operator = "+") then argValue - 1
              else nextVal0
            simulateCall tbl stepInfo maxD fuel funcName nextVal (depth + 1) newStack
          else []
        let popEv : TraceEvent :=
          { action := "pop", frame := { newFrame with isBaseCase := some isBaseCase },
            stack := stack.map (·.name), fullStack := stack,
            description := "return from " ++ funcName ++ "(" ++ toString argValue ++ ")",
            returnValue := some returnValue }
        pushEv :: inner ++ [popEv]

/-- The fallback `push` event for `main` (note the JavaScript object
literal has `argValue: ''` on the frame but no `argValue` key on the
`fullStack` entry). -/
def mainPushEvent (line : Int) : TraceEvent :=
  { action := "push",
    frame := { name := "main", line := line, depth := 0, argName := none,
               argValue := .str "", returnValue := none, isBaseCase := none },
    stack := ["main"],
    fullStack := [ { name := "main", line := line, depth := 0, argName := none,
                     argValue := .undef, returnValue := none, isBaseCase := none } ],
    description := "main()", returnValue := none }

/-- The fallback `pop` event for `main`, with return value 0. -/
def mainPopEvent (line : Int) : TraceEvent :=
  { action := "pop",
    frame := { name := "main", line := line, depth := 0, argName := none,
               argValue := .undef, returnValue := none, isBaseCase := none },
    stack := [], fullStack := [],
    description := "return 0", returnValue := some 0 }

/-- `simulateRecursion`. -/
def simulateRecursion (ast : Option ASTNode) (maxDepth : JNum := some 5) :
    List TraceEvent :=
  match ast with
  | none => []
  | some a =>
    let functions := detectRecursiveFunctions (extractFunctions a)
    let stepInfo := stepInfoFor functions
    match findRecursive functions with
    | some (recName, _) =>
      simulateCall functions stepInfo maxDepth 22 recName (initialVal maxDepth) 0 []
    | none =>
      match lookupTbl functions "main" with
      | some m => [mainPushEvent m.line, mainPopEvent m.line]
      | none => []

/-- `getRecursiveInfo`. -/
def getRecursiveInfo (ast : Option ASTNode) : Option RecInfo :=
  match ast with
  | none => none
  | some a =>
    (findRecursive (detectRecursiveFunctions (extractFunctions a))).map
      (fun p => { name := p.1, params := p.2.params, line := p.2.line })

/-- The clamp applied by the caller (`StackVisualizer.jsx`):
`maxDepth === '' ? 1 : Math.min(20, Math.max(1, maxDepth))`; `none`
models the empty input field. -/
def callerDepth (maxDepth : Option Int) : Int :=
  match maxDepth with
  | none => 1
  | some v => min 20 (max 1 v)

/-! ## Specification-side definitions

These do not come from the source; they give the vocabulary in which the
specified properties are stated (balancedness, preorder traversal,
collected names, the mathematical Fibonacci/factorial functions). -/

/-- The Fibonacci function as the specification states it:
`fib(0)=0`, `fib(1)=1`. -/
def specFib : Nat → Nat
  | 0 => 0
  | 1 => 1
  | n + 2 => specFib n + specFib (n + 1)

/-- The frames contained in one trace event: the event's own frame
snapshot plus its full stack snapshot. -/
def eventFrames (e : TraceEvent) : List StackFrame :=
  e.frame :: e.fullStack

def countPush (l : List TraceEvent) : Nat :=
  l.countP (fun e => e.action == "push")

def countPop (l : List TraceEvent) : Nat :=
  l.countP (fun e => e.action == "pop")

/-- `q` is the pop event matching the push event `p`: same function
name, simulated depth, source line, parameter name and return value on
the frame snapshot (the pop frame additionally carries `isBaseCase`). -/
def matchingEv (p q : TraceEvent) : Prop :=
  p.action = "push" ∧ q.action = "pop" ∧
  q.frame.name = p.frame.name ∧ q.frame.depth = p.frame.depth ∧
  q.frame.line = p.frame.line ∧ q.frame.argName = p.frame.argName ∧
  q.frame.returnValue = p.frame.returnValue

/-- A trace is balanced: it decomposes into nested
`push … matching pop` pairs, so every push has exactly one later
matching pop for the same logical frame occurrence. -/
inductive BalancedTrace : List TraceEvent → Prop where
  | nil : BalancedTrace []
  | node (p q : TraceEvent) (inner rest : List TraceEvent) :
      matchingEv p q → BalancedTrace inner → BalancedTrace rest →
      BalancedTrace (p :: inner ++ q :: rest)

mutual
/-- Preorder (depth-first, node before children) listing of a subtree. -/
def preorder : ASTNode → List ASTNode
  | n@(.mk _ _ _ _ _ ch) => n :: preorderList ch

def preorderList : ASTList → List ASTNode
  | .nil => []
  | .cons c cs => preorder c ++ preorderList cs
end

/-- The per-node test applied by `searchForName`: a named
`DECL_REF_EXPR`, or any node with a non-empty (after trim) name. -/
def nameProbe (m : ASTNode) : Option String :=
  if m.ntype = "DECL_REF_EXPR" ∧ truthyStr m.nname then m.nname
  else if truthyStr m.nname ∧ truthyTrim m.nname then m.nname
  else none

/-- The value of a parseable integer-literal node, if any. -/
def litVal (c : ASTNode) : Option Int :=
  if c.ntype = "INTEGER_LITERAL" then
    match c.nname with
    | some s => if ¬(s = "") then jsParseInt s else none
    | none => none
  else none

/-- Is `m` a call expression whose resolved callee is `target`? -/
def isTargetCall (target : String) (m : ASTNode) : Bool :=
  m.ntype == "CALL_EXPR" && (findCalleeFromFirstChild m == some target)

/-! ## Concrete input trees -/

/-- AST of `int factorial(int n) { if (n <= 1) return 1; return n *
factorial(n - 1); }`, in the clang-like shape the parser emits. -/
def factorialAST : ASTNode :=
  astOf "0" "TRANSLATION_UNIT" none 1 1
    [ astOf "1" "FUNCTION_DECL" (some "factorial") 1 1
        [ astOf "2" "PARM_DECL" (some "n") 1 15 []
        , astOf "3" "COMPOUND_STMT" none 1 20
            [ astOf "4" "IF_STMT" none 2 5
                [ astOf "5" "BINARY_OPERATOR" none 2 9
                    [ astOf "6" "DECL_REF_EXPR" (some "n") 2 9 []
                    , astOf "7" "INTEGER_LITERAL" (some "1") 2 14 [] ]
                , astOf "8" "RETURN_STMT" none 2 17
                    [ astOf "9" "INTEGER_LITERAL" (some "1") 2 24 [] ]
                , astOf "10" "RETURN_STMT" none 3 5
                    [ astOf "11" "BINARY_OPERATOR" none 3 12
                        [ astOf "12" "DECL_REF_EXPR" (some "n") 3 12 []
                        , astOf "13" "CALL_EXPR" (some "factorial") 3 16
                            [ astOf "14" "DECL_REF_EXPR" (some "factorial") 3 16 []
                            , astOf "15" "BINARY_OPERATOR" none 3 26
                                [ astOf "16" "DECL_REF_EXPR" (some "n") 3 26 []
                                , astOf "17" "INTEGER_LITERAL" (some "1") 3 30 [] ] ] ] ] ] ] ] ]

/-- The trace of the factorial scenario: starting value 5, depth bound 5. -/
def factorialTrace : List TraceEvent :=
  simulateRecursion (some factorialAST) (some 5)

/-- AST of `int main() { return 0; }` — no recursion anywhere. -/
def mainAST : ASTNode :=
  astOf "0" "TRANSLATION_UNIT" none 1 1
    [ astOf "1" "FUNCTION_DECL" (some "main") 1 1
        [ astOf "2" "COMPOUND_STMT" none 1 12
            [ astOf "3" "RETURN_STMT" none 2 5
                [ astOf "4" "INTEGER_LITERAL" (some "0") 2 12 [] ] ] ] ]

/-- A lone recursive call node `g(n - 2)`, used to exercise the step
detector at a concrete input. -/
def stepProbeNode : ASTNode :=
  astOf "c0" "CALL_EXPR" (some "g") 4 3
    [ astOf "c1" "DECL_REF_EXPR" (some "g") 4 3 []
    , astOf "c2" "BINARY_OPERATOR" none 4 5
        [ astOf "c3" "DECL_REF_EXPR" (some "n") 4 5 []
        , astOf "c4" "INTEGER_LITERAL" (some "2") 4 9 [] ] ]

/-! ## Helper lemmas -/

/-- Mutual structural induction over `ASTNode`. -/
theorem astInd {P : ASTNode → Prop} {Q : ASTList → Prop}
    (hmk : ∀ i t nm ln col ch, Q ch → P (.mk i t nm ln col ch))
    (hnil : Q .nil)
    (hcons : ∀ a l, P a → Q l → Q (.cons a l)) :
    ∀ n, P n :=
  fun n => @ASTNode.rec P Q hmk hnil hcons n

/-- Mutual structural induction over `ASTList`. -/
theorem astIndL {P : ASTNode → Prop} {Q : ASTList → Prop}
    (hmk : ∀ i t nm ln col ch, Q ch → P (.mk i t nm ln col ch))
    (hnil : Q .nil)
    (hcons : ∀ a l, P a → Q l → Q (.cons a l)) :
    ∀ l, Q l :=
  fun l => @ASTList.rec P Q hmk hnil hcons l

/-- A balanced trace has as many pops as pushes. -/
theorem balanced_counts {l : List TraceEvent} (h : BalancedTrace l) :
    countPush l = countPop l := by
  induction h with
  | nil => rfl
  | node p q inner rest hm hi hr ihi ihr =>
    obtain ⟨hp, hq, -⟩ := hm
    simp only [countPush, countPop, List.countP_cons, List.countP_append, hp, hq] at *
    simp only [show (("push" : String) == "pop") = false from rfl,
      show (("push" : String) == "push") = true from rfl,
      show (("pop" : String) == "pop") = true from rfl,
      show (("pop" : String) == "push") = false from rfl]
    omega

/-- In every initial segment of a balanced trace the pops never
outnumber the pushes: the simulated stack depth never goes negative. -/
theorem balanced_take {l : List TraceEvent} (h : BalancedTrace l) :
    ∀ k, countPop (l.take k) ≤ countPush (l.take k) := by
  induction h with
  | nil => intro k; simp [countPop, countPush]
  | node p q inner rest hm hi hr ihi ihr =>
    intro k
    match k with
    | 0 => simp [countPop, countPush]
    | j + 1 =>
      obtain ⟨hp, hq, -⟩ := hm
      have hcounts := balanced_counts hi
      simp only [countPush, countPop] at hcounts ihi ihr ⊢
      simp only [List.take_succ_cons, List.countP_cons, hp, hq,
        List.take_append_eq_append_take, List.countP_append,
        show (("push" : String) == "pop") = false from rfl,
        show (("push" : String) == "push") = true from rfl,
        Bool.false_eq_true, if_false, if_true]
      have hlen : j + 1 - (p :: inner).length = j - inner.length := by
        simp only [List.length_cons]; omega
      rw [hlen]
      by_cases hj : j ≤ inner.length
      · have h0 : j - inner.length = 0 := by omega
        rw [h0]
        have := ihi j
        simp only [List.take_zero, List.countP_nil]
        omega
      · have hin : inner.take j = inner := List.take_of_length_le (by omega)
        rw [hin]
        have h1 : j - inner.length = (j - inner.length - 1) + 1 := by omega
        rw [h1, List.take_succ_cons]
        have := ihr (j - inner.length - 1)
        simp only [List.countP_cons, hq,
          show (("pop" : String) == "pop") = true from rfl,
          show (("pop" : String) == "push") = false from rfl,
          Bool.false_eq_true, if_false, if_true]
        omega

/-- A call invoked with a stack already beyond the hard bound emits no
events (silent truncation), whatever the remaining fuel. -/
theorem simulateCall_truncates (tbl : Table) (step : StepRule) (maxD : JNum)
    (fuel : Nat) (f : String) (a : Int) (dep : Nat) (st : List StackFrame)
    (h : 20 < st.length) :
    simulateCall tbl step maxD fuel f a dep st = [] := by
  match fuel with
  | 0 => rfl
  | fuel + 1 =>
    rw [simulateCall]
    split
    · rfl
    · simp [h]

/-- Every trace produced by `simulateCall` is balanced, whatever the
fuel. -/
theorem simulateCall_balanced (tbl : Table) (step : StepRule) (maxD : JNum) :
    ∀ (fuel : Nat) (f : String) (a : Int) (dep : Nat) (st : List StackFrame),
    BalancedTrace (simulateCall tbl step maxD fuel f a dep st) := by
  intro fuel
  induction fuel with
  | zero => intro f a dep st; exact .nil
  | succ fuel ih =>
    intro f a dep st
    rw [simulateCall]
    split
    · exact .nil
    split
    · exact .nil
    split
    · exact .nil
    · refine BalancedTrace.node _ _ _ [] ⟨rfl, rfl, rfl, rfl, rfl, rfl, rfl⟩ ?_ .nil
      split
      · exact ih ..
      · exact .nil

/-- If every frame already on the stack respects the depth bound, so
does every frame in every event the call emits. -/
theorem simulateCall_depth_le (tbl : Table) (step : StepRule) (v : Int) :
    ∀ (fuel : Nat) (f : String) (a : Int) (dep : Nat) (st : List StackFrame),
    (∀ fr ∈ st, (fr.depth : Int) ≤ v) →
    ∀ ev ∈ simulateCall tbl step (some v) fuel f a dep st,
    ∀ fr ∈ eventFrames ev, (fr.depth : Int) ≤ v := by
  intro fuel
  induction fuel with
  | zero => intro f a dep st hst ev hev; simp [simulateCall] at hev
  | succ fuel ih =>
    intro f a dep st hst ev hev
    by_cases hgt : jsGtDepth dep (some v) = true
    · rw [simulateCall, if_pos hgt] at hev
      simp at hev
    by_cases h20 : st.length > 20
    · rw [simulateCall_truncates _ _ _ _ _ _ _ _ h20] at hev
      simp at hev
    have hdep : (dep : Int) ≤ v := by
      simp only [jsGtDepth, decide_eq_true_eq] at hgt
      omega
    rcases hlook : lookupTbl tbl f with _ | func
    · rw [simulateCall, if_neg hgt, if_neg h20, hlook] at hev
      simp at hev
    rw [simulateCall, if_neg hgt, if_neg h20, hlook] at hev
    rcases List.mem_cons.mp hev with rfl | hrest
    · intro fr hfr
      rcases List.mem_cons.mp hfr with rfl | h2
      · exact hdep
      rcases List.mem_append.mp h2 with h3 | h3
      · exact hst fr h3
      · rcases List.mem_singleton.mp h3 with rfl
        exact hdep
    rcases List.mem_append.mp hrest with hinner | hpop
    · split at hinner
      · refine ih _ _ _ _ ?_ ev hinner
        intro fr hfr
        rcases List.mem_append.mp hfr with h2 | h2
        · exact hst fr h2
        · rcases List.mem_singleton.mp h2 with rfl
          exact hdep
      · simp at hinner
    · rcases List.mem_singleton.mp hpop with rfl
      intro fr hfr
      rcases List.mem_cons.mp hfr with rfl | h1
      · exact hdep
      · exact hst fr h1

/-- The fuel is only a termination device: any two fuels above what the
hard stack bound allows produce the same trace.  In particular the fuel
22 used by `simulateRecursion` (with an empty initial stack) behaves
like unbounded recursion. -/
theorem simulateCall_fuel_irrelevant (tbl : Table) (step : StepRule) (maxD : JNum) :
    ∀ (k k' : Nat) (f : String) (a : Int) (dep : Nat) (st : List StackFrame),
    21 < st.length + k → 21 < st.length + k' →
    simulateCall tbl step maxD k f a dep st = simulateCall tbl step maxD k' f a dep st := by
  intro k
  induction k with
  | zero =>
    intro k' f a dep st hk hk'
    have h20 : 20 < st.length := by omega
    rw [simulateCall_truncates _ _ _ _ _ _ _ _ h20,
      simulateCall_truncates _ _ _ _ _ _ _ _ h20]
  | succ k ih =>
    intro k' f a dep st hk hk'
    match k' with
    | 0 =>
      have h20 : 20 < st.length := by omega
      rw [simulateCall_truncates _ _ _ _ _ _ _ _ h20,
        simulateCall_truncates _ _ _ _ _ _ _ _ h20]
    | k' + 1 =>
      by_cases hgt : jsGtDepth dep maxD = true
      · rw [simulateCall, if_pos hgt, simulateCall, if_pos hgt]
      by_cases h20 : st.length > 20
      · rw [simulateCall_truncates _ _ _ _ _ _ _ _ h20,
          simulateCall_truncates _ _ _ _ _ _ _ _ h20]
      rcases hlook : lookupTbl tbl f with _ | func
      · rw [simulateCall, if_neg hgt, if_neg h20, hlook,
          simulateCall, if_neg hgt, if_neg h20, hlook]
      rw [simulateCall, if_neg hgt, if_neg h20, hlook,
        simulateCall, if_neg hgt, if_neg h20, hlook]
      dsimp only
      congr 2
      split
      · refine ih k' f _ (dep + 1) _ ?_ ?_ <;>
          simp only [List.length_append, List.length_cons, List.length_nil] <;> omega
      · rfl

/-- `searchForName` is exactly the first hit of the per-node probe
along the preorder (depth-first) traversal of the searched subtree. -/
theorem searchForName_eq_preorder :
    ∀ n : ASTNode, searchForName n = (preorder n).findSome? nameProbe := by
  refine astInd ?_ ?_ ?_ (Q := fun l => searchNameList l = (preorderList l).findSome? nameProbe)
  · intro i t nm ln col ch hQ
    rcases nm with _ | s
    · simp [searchForName, preorder, List.findSome?_cons, nameProbe,
        ASTNode.ntype, ASTNode.nname, truthyStr, truthyTrim, hQ]
    · by_cases h1 : t = "DECL_REF_EXPR" ∧ truthyStr (some s) = true
      · simp [searchForName, preorder, List.findSome?_cons, nameProbe,
          ASTNode.ntype, ASTNode.nname, h1]
      · by_cases h2 : truthyStr (some s) = true ∧ truthyTrim (some s) = true
        · simp [searchForName, preorder, List.findSome?_cons, nameProbe,
            ASTNode.ntype, ASTNode.nname, h1, h2]
        · simp [searchForName, preorder, List.findSome?_cons, nameProbe,
            ASTNode.ntype, ASTNode.nname, h1, h2, hQ]
  · simp [searchNameList, preorderList]
  · intro a l hP hQ
    simp only [searchNameList, preorderList, List.findSome?_append, hP, hQ]
    cases (preorder a).findSome? nameProbe <;> simp [Option.or]

/-- The per-node probe only ever returns the node's own `name` field. -/
theorem nameProbe_eq_some {m : ASTNode} {s : String}
    (h : nameProbe m = some s) : m.nname = some s := by
  unfold nameProbe at h
  split at h
  · exact h
  · split at h
    · exact h
    · exact absurd h (by simp)

/-- A name returned by `searchForName` is the `name` field of some node
of the searched subtree. -/
theorem searchForName_mem {n : ASTNode} {s : String}
    (h : searchForName n = some s) :
    s ∈ (preorder n).filterMap ASTNode.nname := by
  rw [searchForName_eq_preorder] at h
  obtain ⟨m, hm, hprobe⟩ := List.exists_of_findSome?_eq_some h
  exact List.mem_filterMap.mpr ⟨m, hm, nameProbe_eq_some hprobe⟩

/-- `findCallNode` is exactly the first preorder node that is a call
expression resolving to the target. -/
theorem findCallNode_eq_preorder (target : String) :
    ∀ n : ASTNode, findCallNode target n = (preorder n).find? (isTargetCall target) := by
  refine astInd ?_ ?_ ?_
    (Q := fun l => findCallNodeList target l = (preorderList l).find? (isTargetCall target))
  · intro i t nm ln col ch hQ
    by_cases h1 : t = "CALL_EXPR" ∧
        findCalleeFromFirstChild (.mk i t nm ln col ch) = some target
    · obtain ⟨rfl, hc⟩ := h1
      simp [findCallNode, preorder, List.find?_cons, isTargetCall,
        ASTNode.ntype, hc]
    · have hb : isTargetCall target (.mk i t nm ln col ch) = false := by
        simp only [isTargetCall, ASTNode.ntype, Bool.and_eq_false_iff]
        by_cases ht : t = "CALL_EXPR"
        · right
          have : ¬ findCalleeFromFirstChild (.mk i t nm ln col ch) = some target := by
            intro hc; exact h1 ⟨ht, hc⟩
          simp [this]
        · left; simp [ht]
      simp [findCallNode, preorder, List.find?_cons, h1, hb, hQ]
  · simp [findCallNodeList, preorderList]
  · intro a l hP hQ
    simp only [findCallNodeList, preorderList, List.find?_append, hP, hQ]
    cases (preorder a).find? (isTargetCall target) <;> simp [Option.or]

/-- The operand scan takes the first parseable integer literal among
the children, defaulting to 1. -/
theorem extractOperandGo_eq :
    ∀ l : List ASTNode, extractOperandGo l = (l.findSome? litVal).getD 1 := by
  intro l
  induction l with
  | nil => rfl
  | cons c cs ih =>
    obtain ⟨i, t, nm, ln, col, ch⟩ := c
    simp only [extractOperandGo, List.findSome?_cons]
    by_cases ht : t = "INTEGER_LITERAL"
    · subst ht
      rcases nm with _ | s
      · simpa [litVal, ASTNode.ntype, ASTNode.nname] using ih
      · by_cases hs : s = ""
        · subst hs
          simpa [litVal, ASTNode.ntype, ASTNode.nname] using ih
        · rcases hp : jsParseInt s with _ | v
          · simpa [litVal, ASTNode.ntype, ASTNode.nname, hs, hp] using ih
          · simp [litVal, ASTNode.ntype, ASTNode.nname, hs, hp]
    · simpa [litVal, ASTNode.ntype, ht] using ih

/-- If the first self-recursive entry of the table is `(nm, fd)`, then
the object lookup of `nm` finds some record. -/
theorem lookupTbl_isSome_of_findRecursive {tbl : Table} {nm : String} {fd : FuncDef}
    (h : findRecursive tbl = some (nm, fd)) :
    (lookupTbl tbl nm).isSome = true := by
  have hmem : (nm, fd) ∈ tbl := List.mem_of_find?_eq_some h
  have hsome : (tbl.find? (fun p => p.1 == nm)).isSome = true :=
    List.find?_isSome.mpr ⟨(nm, fd), hmem, by simp⟩
  unfold lookupTbl
  rcases hf : tbl.find? (fun p => p.1 == nm) with _ | p
  · rw [hf] at hsome
    exact absurd hsome (by simp)
  · rw [hf]
    rfl

/-- Unfolding `simulateRecursion` when a self-recursive function is
found. -/
theorem simulateRecursion_rec (a : ASTNode) (d : JNum) (nm : String) (fd : FuncDef)
    (h : findRecursive (detectRecursiveFunctions (extractFunctions a)) = some (nm, fd)) :
    simulateRecursion (some a) d =
      simulateCall (detectRecursiveFunctions (extractFunctions a))
        (stepInfoFor (detectRecursiveFunctions (extractFunctions a)))
        d 22 nm (initialVal d) 0 [] := by
  simp only [simulateRecursion]
  rw [h]

/-- Unfolding `simulateRecursion` when no self-recursive function is
found: the `main` fallback. -/
theorem simulateRecursion_fallback (a : ASTNode) (d : JNum)
    (h : findRecursive (detectRecursiveFunctions (extractFunctions a)) = none) :
    simulateRecursion (some a) d =
      (match lookupTbl (detectRecursiveFunctions (extractFunctions a)) "main" with
       | some m => [mainPushEvent m.line, mainPopEvent m.line]
       | none => []) := by
  simp only [simulateRecursion]
  rw [h]

/-- The first event a successful `simulateCall` emits is the push of
the root frame, at depth 0 with the starting argument. -/
theorem simulateCall_head (tbl : Table) (step : StepRule) (maxD : JNum)
    (fuel : Nat) (f : String) (a : Int) (fd : FuncDef)
    (hgt : jsGtDepth 0 maxD = false) (hlook : lookupTbl tbl f = some fd) :
    ∃ ev rest, simulateCall tbl step maxD (fuel + 1) f a 0 [] = ev :: rest ∧
      ev.action = "push" ∧ ev.frame.depth = 0 ∧ ev.frame.argValue = JVal.num a := by
  rw [simulateCall, if_neg (by simp [hgt]), if_neg (by simp), hlook]
  exact ⟨_, _, rfl, rfl, rfl, rfl⟩

/-- The two-register loop computes consecutive Fibonacci numbers. -/
theorem fibIter_spec :
    ∀ (k m : Nat), fibIter (specFib m) (specFib (m + 1)) k = (specFib (m + 1 + k) : Int) := by
  intro k
  induction k with
  | zero => intro m; rfl
  | succ k ih =>
    intro m
    rw [fibIter]
    have hsum : (specFib m : Int) + (specFib (m + 1) : Int) = (specFib (m + 2) : Int) := by
      rw [show specFib (m + 2) = specFib m + specFib (m + 1) from rfl]
      push_cast
      ring
    rw [hsum]
    have := ih (m + 1)
    rw [this, show m + 1 + (k + 1) = m + 1 + 1 + k from by omega]

/-- The accumulator loop computes factorials. -/
theorem factIter_spec :
    ∀ (k n : Nat), factIter ((n.factorial : Int)) ((n : Int) + 1) k = (((n + k).factorial : Nat) : Int) := by
  intro k
  induction k with
  | zero => intro n; rfl
  | succ k ih =>
    intro n
    rw [factIter]
    have hmul : (n.factorial : Int) * ((n : Int) + 1) = ((n + 1).factorial : Int) := by
      rw [show (n + 1).factorial = (n + 1) * n.factorial from rfl]
      push_cast
      ring
    have hsucc : ((n : Int) + 1) + 1 = (((n + 1) : Nat) : Int) + 1 := by push_cast; ring
    rw [hmul, hsucc, ih (n + 1)]
    congr 2
    omega

/-- The `fib` branch of `calculateReturn` computes `specFib` on
non-negative inputs. -/
theorem calculateReturn_fib (fn : String) (v : Int)
    (hf : jsIncludes (jsToLower fn) "fib" = true) (hv : 0 ≤ v) :
    calculateReturn fn v = (specFib v.toNat : Int) := by
  unfold calculateReturn
  rw [if_pos hf]
  by_cases h1 : v ≤ 1
  · rw [if_pos h1]
    have : v = 0 ∨ v = 1 := by omega
    rcases this with rfl | rfl <;> rfl
  · rw [if_neg h1]
    lift v to Nat using hv with n
    have h2 : 2 ≤ n := by omega
    have ht : ((n : Int) - 1).toNat = n - 1 := by omega
    rw [ht]
    have := fibIter_spec (n - 1) 0
    rw [show specFib 0 = 0 from rfl, show specFib 1 = 1 from rfl] at this
    push_cast at this ⊢
    rw [this, Int.toNat_natCast, show (1 : Nat) + (n - 1) = n from by omega]

/-- The `factorial`/`fact` branch of `calculateReturn` computes the
factorial on non-negative inputs and returns 1 at or below 1. -/
theorem calculateReturn_fact (fn : String) (v : Int)
    (hf : jsIncludes (jsToLower fn) "fib" = false)
    (hfa : (jsIncludes (jsToLower fn) "factorial" || jsIncludes (jsToLower fn) "fact") = true) :
    (0 ≤ v → calculateReturn fn v = (v.toNat.factorial : Int)) ∧
    (v ≤ 1 → calculateReturn fn v = 1) := by
  unfold calculateReturn
  rw [if_neg (by simp [hf]), if_pos hfa]
  constructor
  · intro hv
    lift v to Nat using hv with n
    rcases Nat.eq_zero_or_pos n with rfl | hn
    · rfl
    · have ht : ((n : Int) - 1).toNat = n - 1 := by omega
      rw [ht]
      have h1 : ((1 : Nat).factorial : Int) = 1 := by rfl
      have h2 : ((1 : Nat) : Int) + 1 = 2 := by norm_num
      have := factIter_spec (n - 1) 1
      rw [h1, h2] at this
      rw [this]
      simp only [Int.toNat_natCast]
      congr 2
      omega
  · intro hv
    have ht : (v - 1).toNat = 0 := by omega
    rw [ht]
    rfl

/-- The identity branch of `calculateReturn`. -/
theorem calculateReturn_id (fn : String) (v : Int)
    (hf : jsIncludes (jsToLower fn) "fib" = false)
    (hfa : (jsIncludes (jsToLower fn) "factorial" || jsIncludes (jsToLower fn) "fact") = false) :
    calculateReturn fn v = v := by
  unfold calculateReturn
  rw [if_neg (by simp [hf]), if_neg (by simp [hfa])]

/-- Every trace `simulateRecursion` returns is balanced. -/
theorem simulateRecursion_balanced (ast : Option ASTNode) (d : JNum) :
    BalancedTrace (simulateRecursion ast d) := by
  rcases ast with _ | a
  · exact .nil
  rcases h : findRecursive (detectRecursiveFunctions (extractFunctions a)) with _ | ⟨nm, fd⟩
  · rw [simulateRecursion_fallback a d h]
    rcases hl : lookupTbl (detectRecursiveFunctions (extractFunctions a)) "main" with _ | m
    · exact .nil
    · exact BalancedTrace.node (mainPushEvent m.line) (mainPopEvent m.line) [] []
        ⟨rfl, rfl, rfl, rfl, rfl, rfl, rfl⟩ .nil .nil
  · rw [simulateRecursion_rec a d nm fd h]
    exact simulateCall_balanced ..

/-! ## The claims -/

/-- C1: for every AST and every maxDepth value, the trace returned by
`simulateRecursion` is balanced — it decomposes into nested matching
push/pop pairs (`BalancedTrace`, so every push has exactly one later
matching pop for the same frame occurrence), the number of pop events
equals the number of push events, and in every initial segment the pops
never outnumber the pushes (the simulated stack depth never goes
negative). -/
theorem trace_always_balanced (ast : Option ASTNode) (d : JNum) :
    BalancedTrace (simulateRecursion ast d) ∧
    countPush (simulateRecursion ast d) = countPop (simulateRecursion ast d) ∧
    ∀ k, countPop ((simulateRecursion ast d).take k) ≤
         countPush ((simulateRecursion ast d).take k) :=
  ⟨simulateRecursion_balanced ast d,
   balanced_counts (simulateRecursion_balanced ast d),
   balanced_take (simulateRecursion_balanced ast d)⟩

/-- C2 counterexample: as literally stated ("for every maxDepth value"),
the depth-bound claim is false: with `maxDepth = -1` and an AST whose
only function is `main` (no recursion), the fallback trace still carries
frames of depth 0 > -1. -/
theorem depth_bound_fails_at_negative :
    ¬ (∀ ev ∈ simulateRecursion (some mainAST) (some (-1)),
        ∀ fr ∈ eventFrames ev, (fr.depth : Int) ≤ -1) := by
  decide

/-- C2 (amended to non-negative maxDepth): for every AST and every
integer maxDepth `v ≥ 0`, no stack frame contained in any event of the
trace has depth greater than `v`; independently, a call whose stack
already exceeds 20 frames emits nothing (silent truncation, whatever
the fuel); and the trace remains balanced. -/
theorem depth_bound_and_truncation (ast : Option ASTNode) (v : Int) (hv : 0 ≤ v) :
    (∀ ev ∈ simulateRecursion ast (some v), ∀ fr ∈ eventFrames ev, (fr.depth : Int) ≤ v) ∧
    (∀ (tbl : Table) (step : StepRule) (maxD : JNum) (fuel : Nat) (f : String) (a : Int)
       (dep : Nat) (st : List StackFrame), 20 < st.length →
       simulateCall tbl step maxD fuel f a dep st = []) ∧
    BalancedTrace (simulateRecursion ast (some v)) := by
  refine ⟨?_, ?_, simulateRecursion_balanced ast (some v)⟩
  · rcases ast with _ | a
    · intro ev hev; simp [simulateRecursion] at hev
    rcases h : findRecursive (detectRecursiveFunctions (extractFunctions a)) with _ | ⟨nm, fd⟩
    · rw [simulateRecursion_fallback a (some v) h]
      rcases lookupTbl (detectRecursiveFunctions (extractFunctions a)) "main" with _ | m
      · intro ev hev; simp at hev
      · intro ev hev fr hfr
        have h0 : fr.depth = 0 := by
          rcases List.mem_cons.mp hev with rfl | hev2
          · rcases List.mem_cons.mp hfr with rfl | h2
            · rfl
            · simp only [mainPushEvent, eventFrames] at h2
              rcases List.mem_singleton.mp h2 with rfl
              rfl
          · rcases List.mem_cons.mp hev2 with rfl | h3
            · rcases List.mem_cons.mp hfr with rfl | h2
              · rfl
              · simp [mainPopEvent, eventFrames] at h2
            · simp at h3
        rw [h0]
        simpa using hv
    · rw [simulateRecursion_rec a (some v) nm fd h]
      exact simulateCall_depth_le _ _ v 22 nm (initialVal (some v)) 0 [] (by simp)
  · intro tbl step maxD fuel f a dep st h20
    exact simulateCall_truncates tbl step maxD fuel f a dep st h20

/-- C2 witness: the amended statement instantiated at the `main`-only
tree and maxDepth 5. -/
theorem depth_bound_and_truncation_witness :
    BalancedTrace (simulateRecursion (some mainAST) (some 5)) :=
  (depth_bound_and_truncation (some mainAST) 5 (by norm_num)).2.2

/-- C3 counterexample: the claimed six pop return values
1,1,2,6,24,120 (for arguments 1,1,2,3,4,5) do not occur: the factorial
scenario produces only five pops. -/
theorem factorial_scenario_pop_values_differ :
    ¬ ((factorialTrace.filter (fun e => e.action == "pop")).map (fun e => e.returnValue) =
        [some 1, some 1, some 2, some 6, some 24, some 120]) := by
  decide

/-- C3 (amended): the factorial AST with starting value 5 and maxDepth 5
yields exactly 5 nested pushes with arguments 5,4,3,2,1 at depths
0,1,2,3,4, followed by 5 pops in reverse argument order 1,2,3,4,5 whose
return values are 1,2,6,24,120; and `getRecursiveInfo` reports
`{name := "factorial", params := ["n"], line := 1}` (line 1 is the
declaration line). -/
theorem factorial_scenario :
    factorialTrace.map (fun e => e.action) =
      ["push", "push", "push", "push", "push", "pop", "pop", "pop", "pop", "pop"] ∧
    (factorialTrace.filter (fun e => e.action == "push")).map (fun e => e.frame.argValue) =
      [.num 5, .num 4, .num 3, .num 2, .num 1] ∧
    (factorialTrace.filter (fun e => e.action == "push")).map (fun e => e.frame.depth) =
      [0, 1, 2, 3, 4] ∧
    (factorialTrace.filter (fun e => e.action == "pop")).map (fun e => e.frame.argValue) =
      [.num 1, .num 2, .num 3, .num 4, .num 5] ∧
    (factorialTrace.filter (fun e => e.action == "pop")).map (fun e => e.returnValue) =
      [some 1, some 2, some 6, some 24, some 120] ∧
    getRecursiveInfo (some factorialAST) =
      some { name := "factorial", params := ["n"], line := 1 } := by
  decide

/-- C4: `simulateRecursion`'s single numeric parameter (`maxDepth`,
default `some 5`) is both the depth bound and the starting argument:
whenever a self-recursive function exists and the depth guard does not
fire at depth 0 (that is, maxDepth is `NaN` or at least 0), the first
event of the trace is a push at depth 0 whose argument is
`initialVal maxDepth` (`parseInt(maxDepth)`, or 5 if that is `NaN`);
there is no separate starting-value input, and the caller's clamp
(`callerDepth`) always lands in `[1, 20]`, within that guard. -/
theorem single_parameter_drives_simulation :
    (∀ (a : ASTNode) (d : JNum),
       (findRecursive (detectRecursiveFunctions (extractFunctions a))).isSome = true →
       jsGtDepth 0 d = false →
       ∃ ev rest, simulateRecursion (some a) d = ev :: rest ∧
         ev.action = "push" ∧ ev.frame.depth = 0 ∧
         ev.frame.argValue = JVal.num (initialVal d)) ∧
    initialVal none = 5 ∧
    (∀ x : Option Int, 1 ≤ callerDepth x ∧ callerDepth x ≤ 20 ∧
       jsGtDepth 0 (some (callerDepth x)) = false) := by
  refine ⟨?_, rfl, ?_⟩
  · intro a d hsome hgt
    rcases h : findRecursive (detectRecursiveFunctions (extractFunctions a)) with _ | ⟨nm, fd⟩
    · rw [h] at hsome; simp at hsome
    rw [simulateRecursion_rec a d nm fd h]
    have hl := lookupTbl_isSome_of_findRecursive h
    rcases hlook : lookupTbl (detectRecursiveFunctions (extractFunctions a)) nm with _ | f0
    · rw [hlook] at hl; simp at hl
    exact simulateCall_head _ _ d 21 nm (initialVal d) f0 hgt hlook
  · intro x
    rcases x with _ | x
    · exact ⟨le_refl 1, by norm_num [callerDepth], by simp [jsGtDepth, callerDepth]⟩
    · refine ⟨?_, ?_, ?_⟩ <;> simp [callerDepth, jsGtDepth]

/-- C4 witness: the factorial tree at maxDepth 5. -/
theorem single_parameter_witness :
    ∃ ev rest, simulateRecursion (some factorialAST) (some 5) = ev :: rest ∧
      ev.action = "push" ∧ ev.frame.depth = 0 ∧
      ev.frame.argValue = JVal.num (initialVal (some 5)) :=
  single_parameter_drives_simulation.1 factorialAST (some 5) (by decide) (by decide)

/-- C5: the inferred step rule's operator is always subtraction; when
the first positional argument (child index 1) is a binary-operator node
the operand is the first parseable integer-literal child of that
argument (default 1), and otherwise the rule is exactly `{-, 1}`; a
call node with fewer than two children yields no rule; and the single
rule used per analysis comes from the first (preorder) recursive call
site of the chosen function's body, with `{-, 1}` as the fallback. -/
theorem step_rule_always_subtraction :
    (∀ (n : ASTNode) (r : StepRule), detectRecursiveStep n = some r → r.operator = "-") ∧
    (∀ n : ASTNode, detectRecursiveStep n = none ↔ n.childrenOf.toList.length < 2) ∧
    (∀ (n c0 arg : ASTNode) (rest : ASTList),
       n.childrenOf = .cons c0 (.cons arg rest) →
       detectRecursiveStep n =
         some { operator := "-",
                value := if arg.ntype = "BINARY_OPERATOR"
                         then (arg.childrenOf.toList.findSome? litVal).getD 1 else 1 }) ∧
    (∀ (tbl : Table) (nm : String) (f : FuncDef),
       findRecursive tbl = some (nm, f) →
       stepInfoFor tbl =
         (((preorder f.body).find? (isTargetCall nm)).bind detectRecursiveStep).getD
           defaultStep) := by
  refine ⟨?_, ?_, ?_, ?_⟩
  · intro n r h
    unfold detectRecursiveStep at h
    split at h
    · split at h
      · rw [if_pos (by simp [extractOperator])] at h
        simp only [extractOperator, Option.some.injEq] at h
        rw [← h]
      · simp only [Option.some.injEq] at h
        rw [← h]
    · exact absurd h (by simp)
  · intro n
    unfold detectRecursiveStep
    rcases hch : n.childrenOf with _ | ⟨c0, rest⟩
    · simp [ASTList.toList]
    rcases rest with _ | ⟨arg, rest'⟩
    · simp [ASTList.toList]
    · dsimp only
      constructor
      · intro h
        split at h <;> simp_all [extractOperator]
      · intro h
        exfalso
        simp only [ASTList.toList, List.length_cons] at h
        omega
  · intro n c0 arg rest hch
    unfold detectRecursiveStep
    rw [hch]
    dsimp only
    by_cases hb : arg.ntype = "BINARY_OPERATOR"
    · rw [if_pos hb, if_pos (by simp [extractOperator])]
      simp [extractOperator, extractOperand, extractOperandGo_eq, hb]
    · rw [if_neg hb, if_neg hb]
  · intro tbl nm f h
    unfold stepInfoFor
    rw [h]
    dsimp only
    rw [findCallNode_eq_preorder]
    rcases (preorder f.body).find? (isTargetCall nm) with _ | cn
    · rfl
    · dsimp only
      rcases hd : detectRecursiveStep cn with _ | s <;>
        rw [Option.some_bind, hd] <;> rfl

/-- C5 witness: the probe call node `g(n - 2)` gets the rule `{-, 2}`. -/
theorem step_rule_witness : ({ operator := "-", value := 2 } : StepRule).operator = "-" :=
  step_rule_always_subtraction.1 stepProbeNode { operator := "-", value := 2 } (by decide)

/-- C6: the callee of a call expression is resolved from the first
child only: a resolved name always comes from a `name` field inside the
first child's subtree; the result is unchanged by arbitrary replacement
of the remaining (argument) children, so a function name appearing only
in an argument subtree is never resolved as the callee; a call node
with no children resolves to nothing; and on the first child the search
is exactly the first hit of the per-node probe (named `DECL_REF_EXPR`,
else non-empty trimmed name) along the preorder depth-first
traversal. -/
theorem callee_from_first_child_only :
    (∀ (n : ASTNode) (s : String), findCalleeFromFirstChild n = some s →
       ∃ (c : ASTNode) (rest : ASTList), n.childrenOf = .cons c rest ∧
         s ∈ (preorder c).filterMap ASTNode.nname) ∧
    (∀ (i t : String) (nm : Option String) (ln col : Int) (c : ASTNode)
       (rest rest' : ASTList),
       findCalleeFromFirstChild (.mk i t nm ln col (.cons c rest)) =
       findCalleeFromFirstChild (.mk i t nm ln col (.cons c rest'))) ∧
    (∀ (i t : String) (nm : Option String) (ln col : Int),
       findCalleeFromFirstChild (.mk i t nm ln col .nil) = none) ∧
    (∀ (n c : ASTNode) (rest : ASTList), n.childrenOf = .cons c rest →
       findCalleeFromFirstChild n = (preorder c).findSome? nameProbe) := by
  refine ⟨?_, ?_, ?_, ?_⟩
  · intro n s h
    unfold findCalleeFromFirstChild at h
    rcases hch : n.childrenOf with _ | ⟨c, rest⟩
    · rw [hch] at h
      exact absurd h (by simp)
    · rw [hch] at h
      exact ⟨c, rest, rfl, searchForName_mem h⟩
  · intro i t nm ln col c rest rest'
    rfl
  · intro i t nm ln col
    rfl
  · intro n c rest hch
    unfold findCalleeFromFirstChild
    rw [hch]
    exact searchForName_eq_preorder c

/-- C6 witness: for a call node whose argument subtree mentions `g`
but whose first child names `f`, the resolved callee is independent of
the argument list. -/
theorem callee_first_child_witness :
    findCalleeFromFirstChild
      (.mk "w0" "CALL_EXPR" none 1 1
        (.cons (astOf "w1" "DECL_REF_EXPR" (some "f") 1 1 [])
          (.cons (astOf "w2" "DECL_REF_EXPR" (some "g") 1 3 []) .nil))) =
    findCalleeFromFirstChild
      (.mk "w0" "CALL_EXPR" none 1 1
        (.cons (astOf "w1" "DECL_REF_EXPR" (some "f") 1 1 []) .nil)) :=
  callee_from_first_child_only.2.1 "w0" "CALL_EXPR" none 1 1
    (astOf "w1" "DECL_REF_EXPR" (some "f") 1 1 [])
    (.cons (astOf "w2" "DECL_REF_EXPR" (some "g") 1 3 []) .nil) .nil

/-- C7: `calculateReturn` dispatches on the lower-cased name: a name
containing "fib" gets the iterative Fibonacci value (fib(0)=0,
fib(1)=1) on non-negative inputs; otherwise a name containing
"factorial" or "fact" gets the product 1·2·…·n (with result 1 for
n ≤ 1); otherwise the input is returned unchanged. -/
theorem calculateReturn_closed_forms (fn : String) (v : Int) :
    (jsIncludes (jsToLower fn) "fib" = true → 0 ≤ v →
       calculateReturn fn v = (specFib v.toNat : Int)) ∧
    (jsIncludes (jsToLower fn) "fib" = false →
       (jsIncludes (jsToLower fn) "factorial" || jsIncludes (jsToLower fn) "fact") = true →
       (0 ≤ v → calculateReturn fn v = (v.toNat.factorial : Int)) ∧
       (v ≤ 1 → calculateReturn fn v = 1)) ∧
    (jsIncludes (jsToLower fn) "fib" = false →
       (jsIncludes (jsToLower fn) "factorial" || jsIncludes (jsToLower fn) "fact") = false →
       calculateReturn fn v = v) :=
  ⟨fun hf hv => calculateReturn_fib fn v hf hv,
   fun hf hfa => calculateReturn_fact fn v hf hfa,
   fun hf hfa => calculateReturn_id fn v hf hfa⟩

/-- C7 witness: `factorial` at 5 gives 5! = 120. -/
theorem calculateReturn_witness :
    calculateReturn "factorial" 5 = (((5 : Int).toNat.factorial : Nat) : Int) :=
  ((calculateReturn_closed_forms "factorial" 5).2.1 (by decide) (by decide)).1 (by norm_num)

/-- C8: when the analyzed AST has no self-recursive function, the trace
is the `main` fallback: exactly the push event for `main` (depth 0)
followed by the pop event for `main` carrying return value 0 when a
function named `main` is in the table, and the empty trace otherwise;
the two named events have exactly the claimed shape. -/
theorem main_fallback_trace (a : ASTNode) (d : JNum)
    (h : findRecursive (detectRecursiveFunctions (extractFunctions a)) = none) :
    (∀ m : FuncDef,
       lookupTbl (detectRecursiveFunctions (extractFunctions a)) "main" = some m →
       simulateRecursion (some a) d = [mainPushEvent m.line, mainPopEvent m.line]) ∧
    (lookupTbl (detectRecursiveFunctions (extractFunctions a)) "main" = none →
       simulateRecursion (some a) d = []) ∧
    (∀ L : Int, (mainPushEvent L).action = "push" ∧
       (mainPushEvent L).frame.name = "main" ∧ (mainPushEvent L).frame.depth = 0 ∧
       (mainPopEvent L).action = "pop" ∧ (mainPopEvent L).frame.name = "main" ∧
       (mainPopEvent L).returnValue = some 0) := by
  refine ⟨?_, ?_, fun L => ⟨rfl, rfl, rfl, rfl, rfl, rfl⟩⟩
  · intro m hm
    rw [simulateRecursion_fallback a d h, hm]
  · intro hm
    rw [simulateRecursion_fallback a d h, hm]

/-- C8 witness: the `main`-only tree produces exactly the two fallback
events. -/
theorem main_fallback_witness :
    simulateRecursion (some mainAST) (some 5) = [mainPushEvent 1, mainPopEvent 1] :=
  (main_fallback_trace mainAST (some 5) rfl).1 _ rfl

/-- C9: a null AST yields the empty trace and a null recursive-function
summary; and, more generally, for recursion-free input the result is an
empty or two-event trace — both operations are total functions of their
input, so no input raises. -/
theorem null_input_and_totality :
    (∀ d : JNum, simulateRecursion none d = []) ∧
    getRecursiveInfo none = none ∧
    (∀ (a : ASTNode) (d : JNum),
       findRecursive (detectRecursiveFunctions (extractFunctions a)) = none →
       simulateRecursion (some a) d = [] ∨ (simulateRecursion (some a) d).length = 2) := by
  refine ⟨fun d => rfl, rfl, ?_⟩
  intro a d h
  rw [simulateRecursion_fallback a d h]
  rcases lookupTbl (detectRecursiveFunctions (extractFunctions a)) "main" with _ | m
  · left; rfl
  · right; rfl

/-- C9 witness: the `main`-only tree is recursion-free and gets the
two-event fallback. -/
theorem null_input_witness :
    simulateRecursion (some mainAST) (some 3) = [] ∨
    (simulateRecursion (some mainAST) (some 3)).length = 2 :=
  null_input_and_totality.2.2 mainAST (some 3) rfl

/-- C10: `simulateRecursion` is deterministic — two invocations with
identical inputs (the same AST value and the same maxDepth value)
yield identical traces; the embedding is a pure function of exactly
these two inputs. -/
theorem simulateRecursion_deterministic (a b : Option ASTNode) (d e : JNum)
    (hab : a = b) (hde : d = e) :
    simulateRecursion a d = simulateRecursion b e := by
  rw [hab, hde]

/-- C10 witness: determinism instantiated at a concrete input. -/
theorem simulateRecursion_deterministic_witness :
    simulateRecursion none (some 4) = simulateRecursion none (some 4) :=
  simulateRecursion_deterministic none none (some 4) (some 4) rfl rfl
